import Mathlib

/-!
Verification of the Swipelift deck/catalog logic (src/src/App.jsx).

The application state is shallowly embedded: the React `useState` cells that
the claims concern (`exercises`, `deck`, `modalExercise`, `modalOpen`, and the
three modal text fields) become the fields of `AppState`, and each event
handler becomes a pure state transition.  Notes on fidelity:

* `new Date().toISOString()` is an effect; `saveLog` takes the produced
  timestamp string as the parameter `now`.
* `Number(weight)` / `Number(reps)` coerce the entered text to a JS float
  (possibly NaN).  No claim depends on float semantics, only on which value
  was entered and whether a blank field is stored as absent, so the stored
  value is modelled as the entered string itself (`Option String`, `none` for
  a blank field).  JS `Number` is a pure function of that string, so this
  abstraction is a bisimulation for every property stated here.
* `name.toLowerCase()` is modelled with `Char.toLower` (ASCII case mapping):
  the id-derivation claims only distinguish the characters `a-z0-9` and the
  separator, where the two agree.
* `dragX` / `isDragging` / `menuOpen` are visual-only state touched by no
  claim and are omitted.
-/

/-- One logged set: `{ date, weight, reps, notes }` as built in `saveLog`.
`weight`/`reps`/`notes` are `undefined` (here `none`) when the field was
blank. -/
structure SetEntry where
  date : String
  weight : Option String
  reps : Option String
  notes : Option String
deriving Repr, DecidableEq

/-- An exercise record `{ id, name, muscle, history }`. -/
structure Exercise where
  id : String
  name : String
  muscle : Option String
  history : List SetEntry
deriving Repr, DecidableEq

/-- The React state cells the claims concern. -/
structure AppState where
  exercises : List Exercise
  deck : List String
  modalOpen : Bool
  modalExercise : Option Exercise
  weight : String
  reps : String
  notes : String
deriving Repr, DecidableEq

/-- Seed data `sampleExercises` (App.jsx lines 18-22), used on first run. -/
def sampleExercises : List Exercise :=
  [ { id := "deadlift", name := "Deadlift", muscle := some "Posterior chain", history := [] },
    { id := "squat", name := "Back Squat", muscle := some "Quads/Glutes", history := [] },
    { id := "bench", name := "Bench Press", muscle := some "Chest/Triceps", history := [] } ]

/-- First-run state: `exercises = sampleExercises`,
`deck = sampleExercises.map (e => e.id)`, modal closed, fields blank. -/
def initialState : AppState :=
  { exercises := sampleExercises
    deck := sampleExercises.map (fun e => e.id)
    modalOpen := false
    modalExercise := none
    weight := ""
    reps := ""
    notes := "" }

/-- `const current = exercises.find((e) => e.id === currentId) || null` with
`currentId = deck[0]` (App.jsx lines 72-73).  When the deck is empty,
`deck[0]` is `undefined` and the `find` fails, yielding `null`. -/
def current (s : AppState) : Option Exercise :=
  match s.deck.head? with
  | none => none
  | some cid => s.exercises.find? (fun e => e.id == cid)

/-- `onSwipedLeft` (App.jsx lines 83-93): guarded by `if (!current) return;`,
then `rest = deck.slice(1)`, `offset = Math.min(4, rest.length)`, and
`newDeck.splice(offset, 0, current.id)`. -/
def onSwipedLeft (s : AppState) : AppState :=
  match current s with
  | none => s
  | some cur =>
    let rest := s.deck.tail
    let offset := min 4 rest.length
    { s with deck := rest.take offset ++ cur.id :: rest.drop offset }

/-- `onSwipedRight` (App.jsx lines 94-101): guarded by `if (!current) return;`,
then `setModalExercise(current); setModalOpen(true)` — the deck is not
touched. -/
def onSwipedRight (s : AppState) : AppState :=
  match current s with
  | none => s
  | some cur => { s with modalExercise := some cur, modalOpen := true }

/-- `closeModal(snapBackOnly)` (App.jsx lines 135-145): when called with
`snapBackOnly = false` and a pending exercise, replaces the deck head with the
pending id (`setDeck((d) => [modalExercise.id, ...d.slice(1)])`); always
closes the modal and clears the pending reference and the three fields. -/
def closeModal (snapBackOnly : Bool) (s : AppState) : AppState :=
  let s1 :=
    if !snapBackOnly then
      match s.modalExercise with
      | some p => { s with deck := p.id :: s.deck.tail }
      | none => s
    else s
  { s1 with modalOpen := false, modalExercise := none,
            weight := "", reps := "", notes := "" }

/-- `saveLog(now)` (App.jsx lines 114-133): no-op when `modalExercise` is
null; otherwise builds the entry (blank fields stored as `undefined`), maps
the entry onto every record whose id equals the pending id, sends the deck
head position to the back (`setDeck((d) => [...d.slice(1), modalExercise.id])`),
and ends with `closeModal(true)` which only clears the modal state. -/
def saveLog (now : String) (s : AppState) : AppState :=
  match s.modalExercise with
  | none => s
  | some p =>
    let entry : SetEntry :=
      { date := now
        weight := if s.weight = "" then none else some s.weight
        reps := if s.reps = "" then none else some s.reps
        notes := if s.notes = "" then none else some s.notes }
    let updated := s.exercises.map (fun e =>
      if e.id = p.id then { e with history := e.history ++ [entry] } else e)
    closeModal true { s with exercises := updated, deck := s.deck.tail ++ [p.id] }

/-- The Cancel button (App.jsx lines 333-339): first its own
`setDeck((d) => [modalExercise.id, ...d.slice(1)])` when a pending exercise
exists, then `closeModal(false)` — which applies the same head replacement a
second time, the pending reference still being set. -/
def cancelButton (s : AppState) : AppState :=
  closeModal false
    (match s.modalExercise with
     | some p => { s with deck := p.id :: s.deck.tail }
     | none => s)

/-! ## Id derivation (App.jsx line 149)

`name.toLowerCase().replace(/[^a-z0-9]+/g, "-").replace(/(^-|-$)/g, "")`:
each maximal run of characters outside `a-z0-9` becomes one `-`, then one
leading and one trailing `-` are removed. -/

/-- Membership in the regex character class `[a-z0-9]`. -/
def isAlnum (c : Char) : Bool :=
  (97 ≤ c.toNat && c.toNat ≤ 122) || (48 ≤ c.toNat && c.toNat ≤ 57)

/-- `replace(/[^a-z0-9]+/g, "-")`: `inRun` records whether the scanner is
inside a run of excluded characters already replaced by a `-`. -/
def collapseAux (inRun : Bool) : List Char → List Char
  | [] => []
  | c :: rest =>
    if isAlnum c then c :: collapseAux false rest
    else if inRun then collapseAux true rest
    else '-' :: collapseAux true rest

/-- Strip one leading `-` (the `^-` alternative of the second regex). -/
def stripLeadDash : List Char → List Char
  | [] => []
  | c :: rest => if c = '-' then rest else c :: rest

/-- Strip one trailing `-` (the `-$` alternative of the second regex). -/
def stripTrailDash (s : List Char) : List Char :=
  (stripLeadDash s.reverse).reverse

/-- The id derivation of App.jsx line 149. -/
def deriveId (name : String) : String :=
  String.mk (stripTrailDash (stripLeadDash (collapseAux false (name.data.map Char.toLower))))

/-- `addExercise(name, muscle)` (App.jsx lines 148-154): derive the id, no-op
when it is empty or already present, otherwise append the record to the
catalog and the id to the deck tail. -/
def addExercise (name : String) (muscle : Option String) (s : AppState) : AppState :=
  let id := deriveId name
  if id = "" || s.exercises.any (fun e => e.id = id) then s
  else
    { s with exercises := s.exercises ++ [{ id := id, name := name, muscle := muscle, history := [] }]
             deck := s.deck ++ [id] }

/-- `removeExercise(id)` (App.jsx lines 156-159). -/
def removeExercise (id : String) (s : AppState) : AppState :=
  { s with exercises := s.exercises.filter (fun e => e.id ≠ id)
           deck := s.deck.filter (fun x => x ≠ id) }

/-! ## Well-formedness of derived ids

`wfId` states the shape claimed for `deriveId` output: only `a-z0-9` and `-`,
no leading `-`, no trailing `-`, and no two adjacent `-` — i.e. nonempty
lowercase-alphanumeric segments joined by single separators. -/

/-- Every character is in `[a-z0-9]` or is the separator. -/
def wfChars (s : List Char) : Bool :=
  s.all (fun c => isAlnum c || c == '-')

/-- The first character (if any) is not the separator. -/
def noLeadDash : List Char → Bool
  | [] => true
  | c :: _ => !(c == '-')

/-- No two adjacent separators. -/
def noDoubleDash : List Char → Bool
  | [] => true
  | [_] => true
  | a :: b :: rest => !(a == '-' && b == '-') && noDoubleDash (b :: rest)

/-- The shape claimed for derived ids: lowercase alphanumeric segments joined
by single separators, no leading or trailing separator. -/
def wfId (s : String) : Bool :=
  wfChars s.data && noLeadDash s.data && noDoubleDash s.data && noLeadDash s.data.reverse

/-! ## Reachable states

The states an application session can be in, starting from the first-run
state and closed under every event handler. -/

/-- Reachability from the first-run state under the event handlers. -/
inductive Reachable : AppState → Prop
  | init : Reachable initialState
  | swipeLeft {s} : Reachable s → Reachable (onSwipedLeft s)
  | swipeRight {s} : Reachable s → Reachable (onSwipedRight s)
  | save {s} (now : String) : Reachable s → Reachable (saveLog now s)
  | cancel {s} : Reachable s → Reachable (cancelButton s)
  | close {s} (b : Bool) : Reachable s → Reachable (closeModal b s)
  | add {s} (name : String) (muscle : Option String) :
      Reachable s → Reachable (addExercise name muscle s)
  | remove {s} (id : String) : Reachable s → Reachable (removeExercise id s)

/-! ## Basic facts about the transitions -/

theorem closeModal_exercises (b : Bool) (s : AppState) :
    (closeModal b s).exercises = s.exercises := by
  cases b
  · cases h : s.modalExercise <;> simp [closeModal, h]
  · rfl

theorem cancelButton_exercises (s : AppState) :
    (cancelButton s).exercises = s.exercises := by
  cases h : s.modalExercise <;> simp [cancelButton, closeModal, h]

theorem onSwipedLeft_exercises (s : AppState) :
    (onSwipedLeft s).exercises = s.exercises := by
  cases h : current s <;> simp [onSwipedLeft, h]

theorem onSwipedRight_exercises (s : AppState) :
    (onSwipedRight s).exercises = s.exercises := by
  cases h : current s <;> simp [onSwipedRight, h]

theorem current_id_eq_head (s : AppState) (cur : Exercise) (h : current s = some cur) :
    s.deck.head? = some cur.id ∧ cur ∈ s.exercises := by
  cases hd : s.deck with
  | nil => simp [current, hd] at h
  | cons a t =>
    have h2 : s.exercises.find? (fun e => e.id == a) = some cur := by
      simpa [current, hd] using h
    have h1 := List.find?_some h2
    simp only [beq_iff_eq] at h1
    exact ⟨by simp [hd, h1], List.mem_of_find?_eq_some h2⟩

theorem deck_eq_cons_of_current (s : AppState) (cur : Exercise) (h : current s = some cur) :
    s.deck = cur.id :: s.deck.tail := by
  have h1 := (current_id_eq_head s cur h).1
  cases hd : s.deck with
  | nil => rw [hd] at h1; simp at h1
  | cons a t =>
    rw [hd] at h1
    simp only [List.head?_cons, Option.some.injEq] at h1
    simp [h1]

/-! ## Claim theorems: deck transitions -/

/-- C1: a left-swipe on a deck with a current card removes the head and
reinserts it at position `min 4 (length of the rest)`: on a deck of length at
least 5 the head lands exactly 4 positions back, on a shorter deck it goes to
the tail, and the remaining elements keep their relative order (they appear
exactly as `take ++ drop` of the untouched rest). -/
theorem skip_moves_head_back (s : AppState) (a : String) (t : List String)
    (hd : s.deck = a :: t) (hc : ∃ cur, current s = some cur) :
    (onSwipedLeft s).deck = t.take (min 4 t.length) ++ a :: t.drop (min 4 t.length)
    ∧ (4 ≤ t.length →
        (onSwipedLeft s).deck = t.take 4 ++ a :: t.drop 4
        ∧ (onSwipedLeft s).deck[4]? = some a)
    ∧ (t.length < 4 → (onSwipedLeft s).deck = t ++ [a]) := by
  obtain ⟨cur, hcur⟩ := hc
  have hida : cur.id = a := by
    have h1 := (current_id_eq_head s cur hcur).1
    rw [hd] at h1
    simp only [List.head?_cons, Option.some.injEq] at h1
    exact h1.symm
  have hmain : (onSwipedLeft s).deck
      = t.take (min 4 t.length) ++ a :: t.drop (min 4 t.length) := by
    simp [onSwipedLeft, hcur, hd, hida]
  refine ⟨hmain, ?_, ?_⟩
  · intro h4
    have hmin : min 4 t.length = 4 := Nat.min_eq_left h4
    rw [hmain, hmin]
    refine ⟨rfl, ?_⟩
    rw [List.getElem?_append_right (by simp [List.length_take, hmin])]
    simp [List.length_take, hmin]
  · intro hlt
    have hmin : min 4 t.length = t.length := Nat.min_eq_right (Nat.le_of_lt hlt)
    rw [hmain, hmin]
    simp

/-- C2: Save with a pending exercise whose id heads the deck moves that id
from head to tail, and maps onto the catalog pointwise: every record with a
different id is unchanged in place, and every record carrying the pending id
gains exactly one entry holding the timestamp and the entered fields, a blank
field stored as absent. -/
theorem save_commits (now : String) (s : AppState) (p : Exercise) (t : List String)
    (hm : s.modalExercise = some p) (hd : s.deck = p.id :: t) :
    (saveLog now s).deck = t ++ [p.id]
    ∧ (saveLog now s).exercises.length = s.exercises.length
    ∧ (∀ (i : Nat) (e : Exercise), s.exercises[i]? = some e →
        (e.id ≠ p.id → (saveLog now s).exercises[i]? = some e)
        ∧ (e.id = p.id → (saveLog now s).exercises[i]? = some
            { e with history := e.history ++
                [{ date := now
                   weight := if s.weight = "" then none else some s.weight
                   reps := if s.reps = "" then none else some s.reps
                   notes := if s.notes = "" then none else some s.notes }] })) := by
  have hex : (saveLog now s).exercises = s.exercises.map (fun e =>
      if e.id = p.id then
        { e with history := e.history ++
            [{ date := now
               weight := if s.weight = "" then none else some s.weight
               reps := if s.reps = "" then none else some s.reps
               notes := if s.notes = "" then none else some s.notes }] }
      else e) := by
    simp [saveLog, hm, closeModal]
  have hdeck : (saveLog now s).deck = t ++ [p.id] := by
    simp [saveLog, hm, closeModal, hd]
  refine ⟨hdeck, by rw [hex]; simp, ?_⟩
  intro i e hie
  constructor
  · intro hne
    rw [hex, List.getElem?_map, hie]
    simp [hne]
  · intro heq
    rw [hex, List.getElem?_map, hie]
    simp [heq]

/-- C3: cancelling the modal right after a right-swipe restores the deck
byte-for-byte and leaves the catalog (histories included) untouched; the
modal ends closed with no pending exercise. -/
theorem cancel_restores (s : AppState) (cur : Exercise) (hc : current s = some cur) :
    (cancelButton (onSwipedRight s)).deck = s.deck
    ∧ (cancelButton (onSwipedRight s)).exercises = s.exercises
    ∧ (cancelButton (onSwipedRight s)).modalOpen = false
    ∧ (cancelButton (onSwipedRight s)).modalExercise = none := by
  have hdk : s.deck = cur.id :: s.deck.tail := deck_eq_cons_of_current s cur hc
  have hsr : onSwipedRight s = { s with modalExercise := some cur, modalOpen := true } := by
    simp [onSwipedRight, hc]
  rw [hsr]
  refine ⟨?_, ?_, rfl, rfl⟩
  · simp [cancelButton, closeModal]
    exact hdk.symm
  · simp [cancelButton, closeModal]

/-- C4: within a modal interaction the catalog changes exactly on Save with a
pending exercise: Save with no pending exercise is a strict no-op, Cancel and
the opening right-swipe never touch the catalog, and Save in the state
produced by a right-swipe with a current card strictly changes the
catalog. -/
theorem modal_catalog_iff (now : String) (s : AppState) :
    (s.modalExercise = none → saveLog now s = s)
    ∧ (cancelButton s).exercises = s.exercises
    ∧ (onSwipedRight s).exercises = s.exercises
    ∧ (∀ s0 cur, current s0 = some cur → s = onSwipedRight s0 →
        (saveLog now s).exercises ≠ s.exercises) := by
  refine ⟨?_, cancelButton_exercises s, onSwipedRight_exercises s, ?_⟩
  · intro h
    simp [saveLog, h]
  · intro s0 cur hcur hs
    have hmem : cur ∈ s0.exercises := (current_id_eq_head s0 cur hcur).2
    have hm : s.modalExercise = some cur := by
      rw [hs]; simp [onSwipedRight, hcur]
    have hexeq : s.exercises = s0.exercises := by
      rw [hs]; exact onSwipedRight_exercises s0
    intro hcontra
    have hex : (saveLog now s).exercises = s.exercises.map (fun e =>
        if e.id = cur.id then
          { e with history := e.history ++
              [{ date := now
                 weight := if s.weight = "" then none else some s.weight
                 reps := if s.reps = "" then none else some s.reps
                 notes := if s.notes = "" then none else some s.notes }] }
        else e) := by
      simp [saveLog, hm, closeModal]
    rw [hex] at hcontra
    obtain ⟨i, hi, hgi⟩ := List.mem_iff_getElem.mp (hexeq ▸ hmem)
    have h1 : (s.exercises.map (fun e =>
        if e.id = cur.id then
          { e with history := e.history ++
              [{ date := now
                 weight := if s.weight = "" then none else some s.weight
                 reps := if s.reps = "" then none else some s.reps
                 notes := if s.notes = "" then none else some s.notes }] }
        else e))[i]? = s.exercises[i]? := by rw [hcontra]
    rw [List.getElem?_map, List.getElem?_eq_getElem hi, hgi] at h1
    simp at h1
    have h2 := congrArg Exercise.history h1
    have h3 := congrArg List.length h2
    simp at h3

/-- C7: create-exercise is a no-op when the derived id is empty or already in
the catalog; otherwise the new record (given name and muscle, empty history)
is appended to the catalog and its id to the deck tail. -/
theorem add_exercise_spec (name : String) (muscle : Option String) (s : AppState) :
    ((deriveId name = "" ∨ ∃ e ∈ s.exercises, e.id = deriveId name) →
        addExercise name muscle s = s)
    ∧ ((deriveId name ≠ "" ∧ ∀ e ∈ s.exercises, e.id ≠ deriveId name) →
        (addExercise name muscle s).exercises
            = s.exercises ++ [{ id := deriveId name, name := name, muscle := muscle, history := [] }]
        ∧ (addExercise name muscle s).deck = s.deck ++ [deriveId name]) := by
  constructor
  · intro h
    rcases h with h | ⟨e, he, hid⟩
    · simp [addExercise, h]
    · have hany : s.exercises.any (fun e => decide (e.id = deriveId name)) = true := by
        simp only [List.any_eq_true, decide_eq_true_eq]
        exact ⟨e, he, hid⟩
      simp [addExercise, hany]
  · rintro ⟨hne, hfresh⟩
    have hany : s.exercises.any (fun e => decide (e.id = deriveId name)) = false := by
      simp only [List.any_eq_false, decide_eq_true_eq]
      exact hfresh
    constructor <;> simp [addExercise, hne, hany]

/-- C8: remove-exercise keeps exactly the records with a different id and the
deck entries different from the removed id, preserving relative order
(sublists of the originals); for an id present in neither the catalog nor the
deck the whole state is unchanged. -/
theorem remove_exercise_spec (id : String) (s : AppState) :
    (List.Sublist (removeExercise id s).exercises s.exercises
     ∧ (∀ e ∈ (removeExercise id s).exercises, e.id ≠ id)
     ∧ (∀ e ∈ s.exercises, e.id ≠ id → e ∈ (removeExercise id s).exercises)
     ∧ List.Sublist (removeExercise id s).deck s.deck
     ∧ id ∉ (removeExercise id s).deck
     ∧ (∀ x ∈ s.deck, x ≠ id → x ∈ (removeExercise id s).deck))
    ∧ ((∀ e ∈ s.exercises, e.id ≠ id) → id ∉ s.deck → removeExercise id s = s) := by
  constructor
  · refine ⟨List.filter_sublist s.exercises, ?_, ?_, List.filter_sublist s.deck, ?_, ?_⟩
    · intro e he
      have := (List.mem_filter.mp he).2
      simpa using this
    · intro e he hne
      exact List.mem_filter.mpr ⟨he, by simpa using hne⟩
    · intro hmem
      have := (List.mem_filter.mp hmem).2
      simp at this
    · intro x hx hne
      exact List.mem_filter.mpr ⟨hx, by simpa using hne⟩
  · intro hcat hdeck
    have h1 : s.exercises.filter (fun e => decide (e.id ≠ id)) = s.exercises := by
      rw [List.filter_eq_self]
      intro e he
      simpa using hcat e he
    have h2 : s.deck.filter (fun x => decide (x ≠ id)) = s.deck := by
      rw [List.filter_eq_self]
      intro x hx
      simp
      intro hcontra
      exact hdeck (hcontra ▸ hx)
    show AppState.mk _ _ _ _ _ _ _ = s
    rw [h1, h2]

/-- C9: with an empty deck, or a deck head that matches no catalog record,
the current-card lookup yields `none` and both swipe handlers leave the whole
state unchanged. -/
theorem no_current_noop (s : AppState)
    (h : s.deck = [] ∨ ∀ e ∈ s.exercises, some e.id ≠ s.deck.head?) :
    current s = none ∧ onSwipedLeft s = s ∧ onSwipedRight s = s := by
  have hc : current s = none := by
    cases hd : s.deck with
    | nil => simp [current, hd]
    | cons a t =>
      rcases h with h | h
      · rw [h] at hd; exact absurd hd (by simp)
      · simp only [current, hd, List.head?_cons]
        rw [List.find?_eq_none]
        intro e he hbeq
        have hne := h e he
        rw [hd] at hne
        simp only [List.head?_cons, ne_eq, Option.some.injEq] at hne
        exact hne (eq_of_beq hbeq)
  exact ⟨hc, by simp [onSwipedLeft, hc], by simp [onSwipedRight, hc]⟩

/-- C10: with a pending exercise `p`, Save and Cancel act positionally on the
deck: Save always produces `tail ++ [p.id]` and one head replacement produces
`p.id :: tail`; the Cancel button (which applies the replacement twice, once
itself and once via `closeModal`) coincides with a single application.  When
the head equals `p.id` the replacement restores the deck exactly; when it
differs, the old head (occurring nowhere else) disappears from the deck, and
the count of `p.id` always grows by one over the tail. -/
theorem deck_ops_positional (now : String) (s : AppState) (p : Exercise)
    (hm : s.modalExercise = some p) :
    (saveLog now s).deck = s.deck.tail ++ [p.id]
    ∧ (closeModal false s).deck = p.id :: s.deck.tail
    ∧ (cancelButton s).deck = p.id :: s.deck.tail
    ∧ (s.deck.head? = some p.id →
        (closeModal false s).deck = s.deck ∧ (cancelButton s).deck = s.deck)
    ∧ (∀ (a : String) (t : List String), s.deck = a :: t → a ≠ p.id → a ∉ t →
        a ∉ (saveLog now s).deck ∧ a ∉ (cancelButton s).deck)
    ∧ (cancelButton s).deck.count p.id = s.deck.tail.count p.id + 1 := by
  have hsave : (saveLog now s).deck = s.deck.tail ++ [p.id] := by
    simp [saveLog, hm, closeModal]
  have hclose : (closeModal false s).deck = p.id :: s.deck.tail := by
    simp [closeModal, hm]
  have hcancel : (cancelButton s).deck = p.id :: s.deck.tail := by
    simp [cancelButton, closeModal, hm]
  refine ⟨hsave, hclose, hcancel, ?_, ?_, ?_⟩
  · intro hhead
    have hdk : s.deck = p.id :: s.deck.tail := by
      cases hd : s.deck with
      | nil => rw [hd] at hhead; exact absurd hhead (by simp)
      | cons a t =>
        rw [hd] at hhead
        simp only [List.head?_cons, Option.some.injEq] at hhead
        simp [hhead]
    exact ⟨by rw [hclose, ← hdk], by rw [hcancel, ← hdk]⟩
  · intro a t hd hne hnt
    constructor
    · rw [hsave, hd]
      simp [hne, hnt]
    · rw [hcancel, hd]
      simp [hne, hnt]
  · rw [hcancel]
    simp

/-! ## Shape and idempotence of the id derivation -/

theorem ne_dash_of_isAlnum (c : Char) (h : isAlnum c = true) : c ≠ '-' := by
  intro hc
  subst hc
  simp [isAlnum] at h

theorem toLower_eq_self_of_kept (c : Char) (h : (isAlnum c || c == '-') = true) :
    c.toLower = c := by
  rcases Bool.or_eq_true_iff.mp h with h1 | h1
  · simp only [isAlnum, Bool.or_eq_true, Bool.and_eq_true, decide_eq_true_eq] at h1
    simp only [Char.toLower]
    rw [if_neg (by omega)]
  · rw [eq_of_beq h1]
    decide

theorem map_toLower_id (s : List Char) (h : wfChars s = true) :
    s.map Char.toLower = s := by
  have h1 := List.all_eq_true.mp h
  calc s.map Char.toLower = s.map id := by
        apply List.map_congr_left
        intro c hc
        exact toLower_eq_self_of_kept c (h1 c hc)
    _ = s := List.map_id s

theorem noDoubleDash_tail (c : Char) (s : List Char) (h : noDoubleDash (c :: s) = true) :
    noDoubleDash s = true := by
  cases s with
  | nil => rfl
  | cons b r =>
    simp only [noDoubleDash, Bool.and_eq_true] at h
    exact h.2

theorem noLeadDash_of_noDoubleDash_dash (s : List Char)
    (h : noDoubleDash ('-' :: s) = true) : noLeadDash s = true := by
  cases s with
  | nil => rfl
  | cons b r =>
    simp only [noDoubleDash, Bool.and_eq_true] at h
    have h1 := h.1
    simp only [noLeadDash]
    simp at h1 ⊢
    exact h1

theorem noDoubleDash_cons_of_ne (c : Char) (s : List Char) (hc : c ≠ '-')
    (h : noDoubleDash s = true) : noDoubleDash (c :: s) = true := by
  cases s with
  | nil => rfl
  | cons b r =>
    simp only [noDoubleDash, Bool.and_eq_true]
    refine ⟨?_, h⟩
    simp [hc]

theorem noDoubleDash_cons_of_noLead (c : Char) (s : List Char)
    (hl : noLeadDash s = true) (h : noDoubleDash s = true) :
    noDoubleDash (c :: s) = true := by
  cases s with
  | nil => rfl
  | cons b r =>
    simp only [noLeadDash, Bool.not_eq_eq_eq_not, Bool.not_true] at hl
    simp only [noDoubleDash, Bool.and_eq_true]
    exact ⟨by simp [hl], h⟩

theorem wfChars_tail (c : Char) (s : List Char) (h : wfChars (c :: s) = true) :
    wfChars s = true := by
  simp only [wfChars, List.all_cons, Bool.and_eq_true] at h
  exact h.2

theorem collapseAux_id (s : List Char) (h1 : wfChars s = true) (h2 : noDoubleDash s = true) :
    collapseAux false s = s ∧ (noLeadDash s = true → collapseAux true s = s) := by
  induction s with
  | nil => exact ⟨rfl, fun _ => rfl⟩
  | cons c rest ih =>
    have hrest := ih (wfChars_tail c rest h1) (noDoubleDash_tail c rest h2)
    have hc : (isAlnum c || c == '-') = true := by
      simp only [wfChars, List.all_cons, Bool.and_eq_true] at h1
      exact h1.1
    rcases Bool.or_eq_true_iff.mp hc with hA | hD
    · constructor
      · simp only [collapseAux, if_pos hA]
        rw [hrest.1]
      · intro _
        simp only [collapseAux, if_pos hA]
        rw [hrest.1]
    · have hceq : c = '-' := eq_of_beq hD
      subst hceq
      have hAn : isAlnum '-' = false := by decide
      constructor
      · simp only [collapseAux, hAn, Bool.false_eq_true, if_false, if_neg]
        have hlead : noLeadDash rest = true := noLeadDash_of_noDoubleDash_dash rest h2
        rw [hrest.2 hlead]
      · intro hl
        simp only [noLeadDash] at hl
        simp at hl

theorem collapseAux_wfChars (s : List Char) : ∀ b, wfChars (collapseAux b s) = true := by
  induction s with
  | nil => intro b; rfl
  | cons c rest ih =>
    intro b
    by_cases hA : isAlnum c = true
    · simp only [collapseAux, if_pos hA, wfChars, List.all_cons, Bool.and_eq_true]
      exact ⟨by simp [hA], ih false⟩
    · simp only [collapseAux, if_neg hA]
      cases b with
      | true => simpa using ih true
      | false =>
        simp only [Bool.false_eq_true, if_false, wfChars, List.all_cons, Bool.and_eq_true]
        exact ⟨by decide, ih true⟩

theorem collapseAux_shape (s : List Char) :
    noLeadDash (collapseAux true s) = true
    ∧ ∀ b, noDoubleDash (collapseAux b s) = true := by
  induction s with
  | nil => exact ⟨rfl, fun b => rfl⟩
  | cons c rest ih =>
    by_cases hA : isAlnum c = true
    · have hne : c ≠ '-' := ne_dash_of_isAlnum c hA
      constructor
      · simp only [collapseAux, if_pos hA, noLeadDash]
        simp [hne]
      · intro b
        simp only [collapseAux, if_pos hA]
        exact noDoubleDash_cons_of_ne c _ hne (ih.2 false)
    · constructor
      · simp only [collapseAux, if_neg hA, if_pos]
        exact ih.1
      · intro b
        cases b with
        | true =>
          simp only [collapseAux, if_neg hA, if_pos]
          exact ih.2 true
        | false =>
          simp only [collapseAux, if_neg hA, Bool.false_eq_true, if_false]
          exact noDoubleDash_cons_of_noLead '-' _ ih.1 (ih.2 true)

theorem stripLeadDash_cases (s : List Char) :
    stripLeadDash s = s ∨ ∃ r, s = '-' :: r ∧ stripLeadDash s = r := by
  cases s with
  | nil => exact Or.inl rfl
  | cons c r =>
    by_cases hc : c = '-'
    · subst hc
      exact Or.inr ⟨r, rfl, by simp [stripLeadDash]⟩
    · exact Or.inl (by simp [stripLeadDash, hc])

theorem stripLeadDash_id (s : List Char) (h : noLeadDash s = true) :
    stripLeadDash s = s := by
  cases s with
  | nil => rfl
  | cons c r =>
    simp only [noLeadDash, Bool.not_eq_eq_eq_not, Bool.not_true] at h
    have hc : c ≠ '-' := by
      intro hcontra
      subst hcontra
      simp at h
    simp [stripLeadDash, hc]

theorem wfChars_stripLeadDash (s : List Char) (h : wfChars s = true) :
    wfChars (stripLeadDash s) = true := by
  rcases stripLeadDash_cases s with h1 | ⟨r, hr, h1⟩
  · rw [h1]; exact h
  · rw [h1]; rw [hr] at h; exact wfChars_tail _ _ h

theorem noDoubleDash_stripLeadDash (s : List Char) (h : noDoubleDash s = true) :
    noDoubleDash (stripLeadDash s) = true := by
  rcases stripLeadDash_cases s with h1 | ⟨r, hr, h1⟩
  · rw [h1]; exact h
  · rw [h1]; rw [hr] at h; exact noDoubleDash_tail _ _ h

theorem noLeadDash_stripLeadDash (s : List Char) (h : noDoubleDash s = true) :
    noLeadDash (stripLeadDash s) = true := by
  cases s with
  | nil => rfl
  | cons c t =>
    by_cases hc : c = '-'
    · subst hc
      rw [show stripLeadDash ('-' :: t) = t by simp [stripLeadDash]]
      exact noLeadDash_of_noDoubleDash_dash t h
    · rw [show stripLeadDash (c :: t) = c :: t by simp [stripLeadDash, hc]]
      simp [noLeadDash, hc]

theorem noDoubleDash_iff_chain (s : List Char) :
    noDoubleDash s = true ↔ List.Chain' (fun a b => ¬(a = '-' ∧ b = '-')) s := by
  induction s with
  | nil => simp [noDoubleDash]
  | cons c rest ih =>
    cases rest with
    | nil => simp [noDoubleDash]
    | cons b r =>
      rw [List.chain'_cons, ← ih]
      simp only [noDoubleDash, Bool.and_eq_true, Bool.not_eq_eq_eq_not, Bool.not_true,
        Bool.and_eq_false_iff]
      constructor
      · rintro ⟨h1, h2⟩
        refine ⟨?_, h2⟩
        rintro ⟨hc, hb⟩
        rcases h1 with h1 | h1 <;> simp [hc, hb] at h1
      · rintro ⟨h1, h2⟩
        refine ⟨?_, h2⟩
        by_cases hc : c = '-'
        · right
          by_cases hb : b = '-'
          · exact absurd ⟨hc, hb⟩ h1
          · simp [hb]
        · left
          simp [hc]

theorem noDoubleDash_reverse (s : List Char) :
    noDoubleDash s.reverse = noDoubleDash s := by
  have h1 : noDoubleDash s.reverse = true ↔ noDoubleDash s = true := by
    rw [noDoubleDash_iff_chain, noDoubleDash_iff_chain, List.chain'_reverse]
    constructor
    · intro h
      exact h.imp (fun a b hab hc => hab ⟨hc.2, hc.1⟩)
    · intro h
      exact h.imp (fun a b hab hc => hab ⟨hc.2, hc.1⟩)
  cases hs : noDoubleDash s with
  | true => exact h1.mpr hs
  | false =>
    cases hr : noDoubleDash s.reverse with
    | false => rfl
    | true => exact absurd (h1.mp hr) (by simp [hs])

theorem wfChars_reverse (s : List Char) : wfChars s.reverse = wfChars s := by
  simp [wfChars, List.all_reverse]

/-- Every output of the id derivation is well-formed: only `a-z0-9` and `-`,
no leading, trailing, or doubled separator. -/
theorem deriveId_wf (name : String) : wfId (deriveId name) = true := by
  have hdata : (deriveId name).data
      = (stripLeadDash ((stripLeadDash (collapseAux false
          (name.data.map Char.toLower))).reverse)).reverse := by
    simp [deriveId, stripTrailDash]
  set u := collapseAux false (name.data.map Char.toLower) with hu
  have hu_wf : wfChars u = true := collapseAux_wfChars _ false
  have hu_nd : noDoubleDash u = true := (collapseAux_shape _).2 false
  set v := stripLeadDash u with hv
  have hv_wf : wfChars v = true := wfChars_stripLeadDash u hu_wf
  have hv_nd : noDoubleDash v = true := noDoubleDash_stripLeadDash u hu_nd
  have hv_nl : noLeadDash v = true := noLeadDash_stripLeadDash u hu_nd
  have hdata2 : (deriveId name).data = (stripLeadDash v.reverse).reverse := by
    rw [hdata]
  have hrev_nd : noDoubleDash v.reverse = true := by
    rw [noDoubleDash_reverse]; exact hv_nd
  have hw_wf : wfChars (stripLeadDash v.reverse).reverse = true := by
    rw [wfChars_reverse]
    exact wfChars_stripLeadDash _ (by rw [wfChars_reverse]; exact hv_wf)
  have hw_nd : noDoubleDash (stripLeadDash v.reverse).reverse = true := by
    rw [noDoubleDash_reverse]
    exact noDoubleDash_stripLeadDash _ hrev_nd
  have hw_nt : noLeadDash ((stripLeadDash v.reverse).reverse).reverse = true := by
    rw [List.reverse_reverse]
    exact noLeadDash_stripLeadDash _ hrev_nd
  have hw_nl : noLeadDash (stripLeadDash v.reverse).reverse = true := by
    rcases stripLeadDash_cases v.reverse with h1 | ⟨r, hr, h1⟩
    · rw [h1, List.reverse_reverse]
      exact hv_nl
    · rw [h1]
      cases hrx : r.reverse with
      | nil => rfl
      | cons y z =>
        have hvv : v = y :: (z ++ ['-']) := by
          have hvr : v = ('-' :: r).reverse := by rw [← hr, List.reverse_reverse]
          rw [hvr, List.reverse_cons, hrx]
          simp
        rw [hvv] at hv_nl
        simp only [noLeadDash] at hv_nl
        simp only [hrx, noLeadDash]
        exact hv_nl
  rw [wfId, hdata2]
  rw [Bool.and_eq_true, Bool.and_eq_true, Bool.and_eq_true]
  exact ⟨⟨⟨hw_wf, hw_nl⟩, hw_nd⟩, hw_nt⟩

/-- The id derivation is the identity on well-formed ids. -/
theorem deriveId_of_wf (t : String) (h : wfId t = true) : deriveId t = t := by
  rw [wfId, Bool.and_eq_true, Bool.and_eq_true, Bool.and_eq_true] at h
  obtain ⟨⟨⟨hchars, hlead⟩, hnd⟩, htrail⟩ := h
  have h1 : t.data.map Char.toLower = t.data := map_toLower_id t.data hchars
  have h2 : collapseAux false t.data = t.data := (collapseAux_id t.data hchars hnd).1
  have h3 : stripLeadDash t.data = t.data := stripLeadDash_id t.data hlead
  have h4 : stripTrailDash t.data = t.data := by
    rw [stripTrailDash, stripLeadDash_id t.data.reverse htrail, List.reverse_reverse]
  rw [deriveId, h1, h2, h3, h4]

/-- C6: the id derivation is idempotent, and its output consists only of
lowercase alphanumeric segments joined by single separators with no leading
or trailing separator (`wfId`). -/
theorem deriveId_idempotent_and_wf (name : String) :
    deriveId (deriveId name) = deriveId name ∧ wfId (deriveId name) = true :=
  ⟨deriveId_of_wf _ (deriveId_wf name), deriveId_wf name⟩

/-- C5 counterexample: two of the three seed records violate the claimed
`id = deriveId name` invariant — "Back Squat" is seeded with id `squat`
although its name derives to `back-squat` (and "Bench Press" with `bench`
versus `bench-press`). -/
theorem seed_id_not_derived :
    (∃ e ∈ initialState.exercises, e.id ≠ deriveId e.name)
    ∧ deriveId "Back Squat" = "back-squat"
    ∧ deriveId "Bench Press" = "bench-press" := by
  refine ⟨⟨{ id := "squat", name := "Back Squat", muscle := some "Quads/Glutes", history := [] },
      by decide, by decide⟩, by decide, by decide⟩

/-- The id/name pairs of the three seed records. -/
def seedIdNames : List (String × String) :=
  [("deadlift", "Deadlift"), ("squat", "Back Squat"), ("bench", "Bench Press")]

/-- C5 (amended): in every reachable state the catalog's ids are pairwise
distinct, and every record either is one of the three fixed seed id/name
pairs (whose ids `squat` and `bench` do NOT equal the derivation of their
names) or was created by `addExercise` and carries exactly the derivation of
its name as id. -/
theorem catalog_ids_invariant (s : AppState) (h : Reachable s) :
    (s.exercises.map (fun e => e.id)).Nodup
    ∧ ∀ e ∈ s.exercises, (e.id, e.name) ∈ seedIdNames ∨ e.id = deriveId e.name := by
  induction h with
  | init => exact ⟨by decide, by decide⟩
  | swipeLeft _ ih => rw [onSwipedLeft_exercises]; exact ih
  | swipeRight _ ih => rw [onSwipedRight_exercises]; exact ih
  | @save s now _ ih =>
    cases hm : s.modalExercise with
    | none =>
      have hnoop : saveLog now s = s := by simp [saveLog, hm]
      rw [hnoop]; exact ih
    | some p =>
      have hex : (saveLog now s).exercises = s.exercises.map (fun e =>
          if e.id = p.id then
            { e with history := e.history ++
                [{ date := now
                   weight := if s.weight = "" then none else some s.weight
                   reps := if s.reps = "" then none else some s.reps
                   notes := if s.notes = "" then none else some s.notes }] }
          else e) := by
        simp [saveLog, hm, closeModal]
      rw [hex]
      constructor
      · rw [List.map_map]
        have hcong : s.exercises.map ((fun e => e.id) ∘ (fun e =>
            if e.id = p.id then
              { e with history := e.history ++
                  [{ date := now
                     weight := if s.weight = "" then none else some s.weight
                     reps := if s.reps = "" then none else some s.reps
                     notes := if s.notes = "" then none else some s.notes }] }
            else e)) = s.exercises.map (fun e => e.id) := by
          apply List.map_congr_left
          intro e _
          by_cases hc : e.id = p.id <;> simp [Function.comp, hc]
        rw [hcong]
        exact ih.1
      · intro e' he'
        obtain ⟨e, he, hfe⟩ := List.mem_map.mp he'
        have hpair : e'.id = e.id ∧ e'.name = e.name := by
          subst hfe
          by_cases hc : e.id = p.id <;> simp [hc]
        rcases ih.2 e he with hl | hr
        · left; rw [hpair.1, hpair.2]; exact hl
        · right; rw [hpair.1, hpair.2]; exact hr
  | cancel _ ih => rw [cancelButton_exercises]; exact ih
  | close b _ ih => rw [closeModal_exercises]; exact ih
  | @add s name muscle _ ih =>
    rcases Classical.em (deriveId name = "" ∨ ∃ e ∈ s.exercises, e.id = deriveId name)
      with hg | hg
    · have hnoop : addExercise name muscle s = s := by
        rcases hg with h0 | ⟨e, he, hid⟩
        · simp [addExercise, h0]
        · have hany : s.exercises.any (fun e => decide (e.id = deriveId name)) = true := by
            simp only [List.any_eq_true, decide_eq_true_eq]
            exact ⟨e, he, hid⟩
          simp [addExercise, hany]
      rw [hnoop]; exact ih
    · push_neg at hg
      obtain ⟨hne, hfresh⟩ := hg
      have hany : s.exercises.any (fun e => decide (e.id = deriveId name)) = false := by
        simp only [List.any_eq_false, decide_eq_true_eq]
        exact hfresh
      have hex : (addExercise name muscle s).exercises = s.exercises ++
          [{ id := deriveId name, name := name, muscle := muscle, history := [] }] := by
        simp [addExercise, hne, hany]
      rw [hex]
      constructor
      · rw [List.map_append, List.nodup_append]
        refine ⟨ih.1, by simp, ?_⟩
        intro a ha hb
        simp only [List.map_cons, List.map_nil, List.mem_singleton] at hb
        subst hb
        obtain ⟨e, he, hide⟩ := List.mem_map.mp ha
        exact hfresh e he hide
      · intro e he
        rcases List.mem_append.mp he with he1 | he1
        · exact ih.2 e he1
        · simp only [List.mem_singleton] at he1
          subst he1
          right
          rfl
  | @remove s id _ ih =>
    constructor
    · have hsub : List.Sublist ((removeExercise id s).exercises.map (fun e => e.id))
          (s.exercises.map (fun e => e.id)) :=
        List.Sublist.map _ (List.filter_sublist s.exercises)
      exact List.Nodup.sublist hsub ih.1
    · intro e he
      have hmem : e ∈ s.exercises := (List.mem_filter.mp he).1
      exact ih.2 e hmem

/-! ## Concrete witnesses -/

/-- The seed record for Deadlift, used as a concrete current card. -/
def deadliftRec : Exercise :=
  { id := "deadlift", name := "Deadlift", muscle := some "Posterior chain", history := [] }

/-- The seed catalog with a 6-card deck headed by `deadlift`. -/
def skipDemo : AppState :=
  { initialState with deck := ["deadlift", "squat", "bench", "a", "b", "c"] }

/-- The seed state right after a right-swipe on the Deadlift card, with the
weight and reps fields filled in. -/
def saveDemo : AppState :=
  { initialState with
      modalOpen := true
      modalExercise := some deadliftRec
      weight := "100"
      reps := "5" }

theorem skip_moves_head_back_witness :
    (onSwipedLeft skipDemo).deck[4]? = some "deadlift" :=
  ((skip_moves_head_back skipDemo "deadlift" ["squat", "bench", "a", "b", "c"]
      rfl ⟨deadliftRec, by decide⟩).2.1 (by decide)).2

theorem save_commits_witness :
    (saveLog "2024-01-01T00:00:00.000Z" saveDemo).deck = ["squat", "bench"] ++ ["deadlift"] :=
  (save_commits "2024-01-01T00:00:00.000Z" saveDemo deadliftRec ["squat", "bench"]
      rfl rfl).1

theorem cancel_restores_witness :
    (cancelButton (onSwipedRight initialState)).deck = initialState.deck :=
  (cancel_restores initialState deadliftRec (by decide)).1

theorem modal_catalog_iff_witness :
    (saveLog "t" (onSwipedRight initialState)).exercises ≠ (onSwipedRight initialState).exercises :=
  (modal_catalog_iff "t" (onSwipedRight initialState)).2.2.2 initialState deadliftRec
    (by decide) rfl

theorem catalog_ids_invariant_witness :
    (initialState.exercises.map (fun e => e.id)).Nodup :=
  (catalog_ids_invariant initialState Reachable.init).1

theorem add_exercise_spec_witness :
    (addExercise "Overhead Press" (some "Delts") initialState).deck
      = initialState.deck ++ ["overhead-press"] := by
  have h := (add_exercise_spec "Overhead Press" (some "Delts") initialState).2
    ⟨by decide, by decide⟩
  rw [h.2]
  decide

theorem remove_exercise_spec_witness :
    removeExercise "clean-and-jerk" initialState = initialState :=
  (remove_exercise_spec "clean-and-jerk" initialState).2 (by decide) (by decide)

theorem no_current_noop_witness :
    onSwipedLeft { initialState with deck := [] } = { initialState with deck := [] } :=
  (no_current_noop { initialState with deck := [] } (Or.inl rfl)).2.1

theorem deck_ops_positional_witness :
    (cancelButton saveDemo).deck = saveDemo.deck :=
  ((deck_ops_positional "t" saveDemo deadliftRec rfl).2.2.2.1 rfl).2
